import Mathlib

/-!
# CoolScrollBar: the minimap scroll bar of the coolscroll plugin

A shallow embedding of `src/coolscrollbar.cpp` and `src/coolscrollbarsettings.h`.

Conventions of the embedding:

* `qreal` is modelled by the exact rationals `ℚ`, `int` by `Int`;
* `int(x)` on a `qreal` is truncation toward zero (`truncToInt`), `/` on two `int`s is
  `Int.tdiv`;
* a `qreal` division is `qdiv`, which yields `none` when the divisor is zero: every function
  that performs such a division returns an `Option`, and `none` means that a division by zero
  was performed;
* Qt objects are represented by the observations the scroll bar makes of them: a host block by
  its `lineCount()` and `isVisible()`, the shadow document by its `lineCount()` and its
  characters with their character formats, the widget by its size and its scroll range.
-/

namespace CoolScroll

/-! ## Data model -/

/-- A colour, by its RGB value. -/
structure QColor where
  rgb : Nat
deriving DecidableEq, Repr

/-- The colour `Qt::white`. -/
def QColor.white : QColor := ⟨0xFFFFFF⟩

/-- A font, by an identifier of its family and its point size. -/
structure QFont where
  family : Nat
  pointSizeF : ℚ
deriving DecidableEq

/-- The two properties of a character format that the scroll bar sets.  `none` is a property
that is not set. -/
structure QTextCharFormat where
  background : Option QColor
  font : Option QFont
deriving DecidableEq

/-- A default-constructed `QTextCharFormat`: no property set. -/
def QTextCharFormat.empty : QTextCharFormat := ⟨none, none⟩

/-- Format merging as done by `QTextCursor::mergeCharFormat`: the properties set in `modifier`
replace those of `base`, the others are kept. -/
def QTextCharFormat.merge (base modifier : QTextCharFormat) : QTextCharFormat :=
  { background := match modifier.background with
      | some c => some c
      | none => base.background
    font := match modifier.font with
      | some f => some f
      | none => base.font }

/-- One character of the shadow document with its character format. -/
structure Cell where
  ch : Char
  format : QTextCharFormat
deriving DecidableEq

/-- A block of the host document: `QTextBlock::lineCount()` and `QTextBlock::isVisible()`. -/
structure QTextBlock where
  lineCount : Int
  isVisible : Bool
deriving DecidableEq, Repr

/-- The fields of `CoolScrollbarSettings` that the modelled functions read.  `fontHeight` is
`QFontMetrics(m_font).height()`. -/
structure CoolScrollbarSettings where
  m_scrollBarWidth : Int
  m_font : QFont
  fontHeight : Int
  m_xDefaultScale : ℚ
  m_yDefaultScale : ℚ
  m_selectionHighlightColor : QColor

/-- The state of a `CoolScrollBar`: its members, the inherited `QScrollBar` range and value, the
widget size, and what it observes of the host document (`origBlocks`) and of its own shadow
document (`internalLineCount`, `internalCells`). -/
structure CoolScrollBar where
  settings : CoolScrollbarSettings
  origBlocks : List QTextBlock
  internalLineCount : Int
  internalCells : List Cell
  width : Int
  height : Int
  minimum : Int
  maximum : Int
  value : Int
  m_yAdditionalScale : ℚ
  m_highlightNextSelection : Bool
  m_leftButtonPressed : Bool
  m_stringToHighlight : List Char

/-! ## Arithmetic of the C++ types -/

/-- Conversion `int(x)` of a `qreal`: truncation toward zero. -/
def truncToInt (q : ℚ) : Int := if 0 ≤ q then ⌊q⌋ else ⌈q⌉

/-- Division of two `qreal`s; `none` when the divisor is zero. -/
def qdiv (a b : ℚ) : Option ℚ := if b = 0 then none else some (a / b)

/-! ## Scale and geometry -/

/-- The constructor `CoolScrollBar::CoolScrollBar`: the member initialisers, on the observations
given.  (The constructor ends with `updatePicture()`, see `construct`.) -/
def init (settings : CoolScrollbarSettings) (origBlocks : List QTextBlock)
    (internalLineCount : Int) (internalCells : List Cell)
    (width height minimum maximum value : Int) : CoolScrollBar :=
  { settings := settings
    origBlocks := origBlocks
    internalLineCount := internalLineCount
    internalCells := internalCells
    width := width
    height := height
    minimum := minimum
    maximum := maximum
    value := value
    m_yAdditionalScale := 1
    m_highlightNextSelection := false
    m_leftButtonPressed := false
    m_stringToHighlight := [] }

/-- The host document's `lineCount()`: the sum of the line counts of its blocks. -/
def documentLineCount (s : CoolScrollBar) : Int :=
  (s.origBlocks.map QTextBlock.lineCount).sum

/-- The function `CoolScrollBar::unfoldedLinesCount`: the loop runs from the first block up to,
and not including, the last block, adding the line count of each visible block. -/
def unfoldedLinesCount (s : CoolScrollBar) : Int :=
  ((s.origBlocks.dropLast.filter QTextBlock.isVisible).map QTextBlock.lineCount).sum

/-- The function `CoolScrollBar::linesInViewportCount`. -/
def linesInViewportCount (s : CoolScrollBar) : Int :=
  2 * documentLineCount s - unfoldedLinesCount s - s.maximum

/-- The function `CoolScrollBar::getXScale`. -/
def getXScale (s : CoolScrollBar) : ℚ := s.settings.m_xDefaultScale

/-- The function `CoolScrollBar::getYScale`. -/
def getYScale (s : CoolScrollBar) : ℚ := s.settings.m_yDefaultScale * s.m_yAdditionalScale

/-- The function `CoolScrollBar::calculateLineHeight`. -/
def calculateLineHeight (s : CoolScrollBar) : ℚ := (s.settings.fontHeight : ℚ)

/-- A rectangle with real coordinates. -/
structure QRectF where
  x : ℚ
  y : ℚ
  width : ℚ
  height : ℚ
deriving DecidableEq

/-- The rectangle that `CoolScrollBar::drawViewportRect` draws. -/
def drawViewportRect (s : CoolScrollBar) : QRectF :=
  let lineHeight : ℚ := calculateLineHeight s * getYScale s
  { x := 0
    y := (s.value : ℚ) * lineHeight
    width := (s.settings.m_scrollBarWidth : ℚ)
    height := (linesInViewportCount s : ℚ) * lineHeight }

/-- The document height computed by `CoolScrollBar::updateScaleFactors`. -/
def scaleDocumentHeight (s : CoolScrollBar) : ℚ :=
  let lineHeight : Int := truncToInt (calculateLineHeight s)
  ((lineHeight * s.internalLineCount : Int) : ℚ) * s.settings.m_yDefaultScale

/-- The function `CoolScrollBar::updateScaleFactors`.  There is no `else` branch: when the
document is not higher than the control, `m_yAdditionalScale` keeps its value. -/
def updateScaleFactors (s : CoolScrollBar) : Option CoolScrollBar :=
  let documentHeight : ℚ := scaleDocumentHeight s
  if documentHeight > (s.height : ℚ) then
    (qdiv (s.height : ℚ) documentHeight).map fun q => { s with m_yAdditionalScale := q }
  else
    some s

/-- The function `CoolScrollBar::updatePicture`, on the state: the scale factors are updated and
the two divisions that give the size of the preview pixmap are performed.  The pixmap itself is
not part of the state. -/
def updatePicture (s : CoolScrollBar) : Option CoolScrollBar :=
  (updateScaleFactors s).bind fun s1 =>
    (qdiv (s1.width : ℚ) (getXScale s1)).bind fun _ =>
      (qdiv (s1.height : ℚ) (getYScale s1)).bind fun _ => some s1

/-- The document height computed by `CoolScrollBar::posToValue`. -/
def posDocumentHeight (s : CoolScrollBar) : ℚ :=
  (s.internalLineCount : ℚ) * calculateLineHeight s * getYScale s

/-- The clamp at the end of `CoolScrollBar::posToValue`. -/
def clampValue (s : CoolScrollBar) (value : Int) : Int :=
  if value > s.maximum then s.maximum
  else if value < s.minimum then s.minimum
  else value

/-- The function `CoolScrollBar::posToValue`. -/
def posToValue (s : CoolScrollBar) (pos : ℚ) : Option Int :=
  let documentHeight : ℚ := posDocumentHeight s
  (qdiv (pos * ((s.maximum + linesInViewportCount s : Int) : ℚ)) documentHeight).map fun q =>
    clampValue s (truncToInt q - Int.tdiv (linesInViewportCount s) 2)

/-- The constructor in full: the member initialisers followed by its call of
`updatePicture()`. -/
def construct (settings : CoolScrollbarSettings) (origBlocks : List QTextBlock)
    (internalLineCount : Int) (internalCells : List Cell)
    (width height minimum maximum value : Int) : Option CoolScrollBar :=
  updatePicture
    (init settings origBlocks internalLineCount internalCells width height minimum maximum value)

/-! ## Highlighting

`QTextDocument::find` and `QTextCursor::mergeCharFormat` belong to Qt.  They are modelled on the
characters of the shadow document: `find` returns the leftmost match that starts at or after the
end of the given cursor, and the comparison of two characters (`same`) is left open, so that
every statement holds for the case-folding comparison Qt uses by default as well as for exact
comparison. -/

/-- Whether `str` matches the text at the head of `text`. -/
def matchesAt (same : Char → Char → Bool) : List Char → List Char → Bool
  | [], _ => true
  | _ :: _, [] => false
  | c :: cs, x :: xs => same c x && matchesAt same cs xs

/-- The start of the leftmost match of `str` in `text`, whose head is at position `i`. -/
def findIn (same : Char → Char → Bool) (str : List Char) : List Char → Nat → Option Nat
  | [], _ => none
  | x :: xs, i => if matchesAt same str (x :: xs) then some i else findIn same str xs (i + 1)

/-- The text of the shadow document. -/
def plainText (doc : List Cell) : List Char := doc.map Cell.ch

/-- The call `internalDocument().find(str, cursor)` for a cursor whose selection ends at `cur`:
the selected range `(start, end)` of the next match, or `none` for the null cursor. -/
def find (same : Char → Char → Bool) (str : List Char) (doc : List Cell) (cur : Nat) :
    Option (Nat × Nat) :=
  (findIn same str ((plainText doc).drop cur) cur).map fun a => (a, a + str.length)

/-- Merge of `fmt` into the cells at positions `a ≤ i < b`; the head of the list is at
position `i`. -/
def mergeFrom (fmt : QTextCharFormat) (a b : Nat) : Nat → List Cell → List Cell
  | _, [] => []
  | i, c :: cs =>
    (if a ≤ i ∧ i < b then { c with format := c.format.merge fmt } else c)
      :: mergeFrom fmt a b (i + 1) cs

/-- The call `cursor.mergeCharFormat(fmt)` for a cursor that selects the range `(a, b)`. -/
def mergeCharFormat (fmt : QTextCharFormat) (a b : Nat) (doc : List Cell) : List Cell :=
  mergeFrom fmt a b 0 doc

/-- The `while(true)` loop of `CoolScrollBar::highlightEntryInDocument`, with the cursor's
selection end `cur`; it leaves through `break` when `find` returns the null cursor.  `none` is
returned when `fuel` iterations did not reach the `break`. -/
def highlightLoop (same : Char → Char → Bool) (str : List Char) (fmt : QTextCharFormat) :
    Nat → Nat → List Cell → Option (List Cell)
  | 0, _, _ => none
  | fuel + 1, cur, doc =>
    match find same str doc cur with
    | some (a, b) => highlightLoop same str fmt fuel b (mergeCharFormat fmt a b doc)
    | none => some doc

/-- The function `CoolScrollBar::highlightEntryInDocument` on the cells of the shadow
document. -/
def highlightEntryInDocument (same : Char → Char → Bool) (doc : List Cell) (str : List Char)
    (fmt : QTextCharFormat) : Option (List Cell) :=
  if str.isEmpty then some doc
  else highlightLoop same str fmt (doc.length + 1) 0 doc

/-- The starts of the matches that the forward scan of `highlightEntryInDocument` visits, from
the cursor end `cur`. -/
def scanLoop (same : Char → Char → Bool) (str : List Char) : Nat → Nat → List Cell → List Nat
  | 0, _, _ => []
  | fuel + 1, cur, doc =>
    match find same str doc cur with
    | some (a, b) => a :: scanLoop same str fuel b doc
    | none => []

/-- The starts of all occurrences of `str` that the forward scan finds in `doc`. -/
def scanOccurrences (same : Char → Char → Bool) (str : List Char) (doc : List Cell) : List Nat :=
  scanLoop same str (doc.length + 1) 0 doc

/-- The format built by `CoolScrollBar::highlightSelectedWord`. -/
def highlightFormat (settings : CoolScrollbarSettings) : QTextCharFormat :=
  { background := some settings.m_selectionHighlightColor
    font := some { settings.m_font with pointSizeF := settings.m_font.pointSizeF * 2 } }

/-- The format built by `CoolScrollBar::clearHighlight`. -/
def neutralFormat (settings : CoolScrollbarSettings) : QTextCharFormat :=
  { background := some QColor.white
    font := some settings.m_font }

/-- The function `CoolScrollBar::highlightSelectedWord`. -/
def highlightSelectedWord (same : Char → Char → Bool) (s : CoolScrollBar) :
    Option CoolScrollBar :=
  (highlightEntryInDocument same s.internalCells s.m_stringToHighlight
    (highlightFormat s.settings)).map fun d => { s with internalCells := d }

/-- The function `CoolScrollBar::clearHighlight`. -/
def clearHighlight (same : Char → Char → Bool) (s : CoolScrollBar) : Option CoolScrollBar :=
  (highlightEntryInDocument same s.internalCells s.m_stringToHighlight
    (neutralFormat s.settings)).map fun d => { s with internalCells := d }

/-- The call of `highlightSelectedWord` repeated `n` times. -/
def highlightTimes (same : Char → Char → Bool) : Nat → CoolScrollBar → Option CoolScrollBar
  | 0, s => some s
  | n + 1, s => (highlightSelectedWord same s).bind (highlightTimes same n)

/-! ## Events -/

/-- The event types that the handlers distinguish. -/
inductive QEventType where
  | MouseButtonPress
  | MouseButtonRelease
  | MouseButtonDblClick
  | MouseMove
  | otherType
deriving DecidableEq, Repr

/-- The mouse buttons that the handlers distinguish. -/
inductive MouseButton where
  | LeftButton
  | RightButton
  | otherButton
deriving DecidableEq, Repr

/-- The function `CoolScrollBar::eventFilter`; `isViewport` is the test
`obj == m_parentEdit->viewport()`.  The second component is the returned `bool`. -/
def eventFilter (s : CoolScrollBar) (isViewport : Bool) (e : QEventType) :
    CoolScrollBar × Bool :=
  (if isViewport then
      { s with m_highlightNextSelection := decide (e = QEventType.MouseButtonDblClick) }
    else s, false)

/-- The slot `CoolScrollBar::onDocumentSelectionChanged`; `selection` is
`m_parentEdit->textCursor().selection().toPlainText()`. -/
def onDocumentSelectionChanged (same : Char → Char → Bool) (s : CoolScrollBar)
    (selection : List Char) : Option CoolScrollBar :=
  if s.m_highlightNextSelection then
    (clearHighlight same s).bind fun s1 =>
      (highlightSelectedWord same { s1 with m_stringToHighlight := selection }).bind fun s2 =>
        updatePicture s2
  else
    some s

/-- The slot `QAbstractSlider::setValue`: the value is bounded to the scroll range. -/
def setValue (s : CoolScrollBar) (v : Int) : CoolScrollBar :=
  { s with value := max s.minimum (min s.maximum v) }

/-- The function `CoolScrollBar::mousePressEvent`; `y` is `event->posF().y()`. -/
def mousePressEvent (same : Char → Char → Bool) (s : CoolScrollBar) (button : MouseButton)
    (y : ℚ) : Option CoolScrollBar :=
  match button with
  | MouseButton.LeftButton =>
    (posToValue s y).map fun v => { setValue s v with m_leftButtonPressed := true }
  | MouseButton.RightButton => (clearHighlight same s).bind updatePicture
  | MouseButton.otherButton => some s

/-- The function `CoolScrollBar::mouseMoveEvent`. -/
def mouseMoveEvent (s : CoolScrollBar) (y : ℚ) : Option CoolScrollBar :=
  if s.m_leftButtonPressed then (posToValue s y).map fun v => setValue s v
  else some s

/-- The function `CoolScrollBar::mouseReleaseEvent`. -/
def mouseReleaseEvent (s : CoolScrollBar) (button : MouseButton) : CoolScrollBar :=
  if button = MouseButton.LeftButton then { s with m_leftButtonPressed := false } else s

/-- The function `CoolScrollBar::resizeEvent`. -/
def resizeEvent (s : CoolScrollBar) : Option CoolScrollBar := updatePicture s

/-- The slot `CoolScrollBar::onDocumentContentChanged`: the shadow document is set from the
host document, whose new observations are given, and the picture is updated. -/
def onDocumentContentChanged (s : CoolScrollBar) (origBlocks : List QTextBlock)
    (internalLineCount : Int) (internalCells : List Cell) : Option CoolScrollBar :=
  updatePicture
    { s with origBlocks := origBlocks
             internalLineCount := internalLineCount
             internalCells := internalCells }

/-- What can happen to a scroll bar: a call of one of its handlers or slots, with the data the
call reads from its environment. -/
inductive Event where
  | filtered (isViewport : Bool) (e : QEventType)
  | selectionChanged (selection : List Char)
  | contentChanged (origBlocks : List QTextBlock) (internalLineCount : Int)
      (internalCells : List Cell)
  | mousePress (button : MouseButton) (y : ℚ)
  | mouseMove (y : ℚ)
  | mouseRelease (button : MouseButton)
  | resize (width height : Int)
  | rangeChanged (minimum maximum value : Int)

/-- One event handled in state `s`. -/
def step (same : Char → Char → Bool) (s : CoolScrollBar) : Event → Option CoolScrollBar
  | Event.filtered isViewport e => some (eventFilter s isViewport e).1
  | Event.selectionChanged selection => onDocumentSelectionChanged same s selection
  | Event.contentChanged blocks n cells => onDocumentContentChanged s blocks n cells
  | Event.mousePress button y => mousePressEvent same s button y
  | Event.mouseMove y => mouseMoveEvent s y
  | Event.mouseRelease button => some (mouseReleaseEvent s button)
  | Event.resize w h => resizeEvent { s with width := w, height := h }
  | Event.rangeChanged lo hi v => some { s with minimum := lo, maximum := hi, value := v }

/-- A sequence of events handled from state `s`, oldest first. -/
def run (same : Char → Char → Bool) (s : CoolScrollBar) : List Event → Option CoolScrollBar
  | [] => some s
  | e :: es => (step same s e).bind fun s1 => run same s1 es

/-- The type of an event that was filtered from the host viewport; `none` for any other
event. -/
def viewportEventType : Event → Option QEventType
  | Event.filtered isViewport t => if isViewport then some t else none
  | _ => none

/-- The type of the most recent event of `es` (oldest first) that was filtered from the host
viewport, if there is one. -/
def lastViewportEvent : List Event → Option QEventType
  | [] => none
  | e :: es =>
    match lastViewportEvent es with
    | some t => some t
    | none => viewportEventType e

/-! ## Concrete states -/

/-- Settings with a line height of 14 pixels and both default scales 1. -/
def demoSettings : CoolScrollbarSettings :=
  { m_scrollBarWidth := 70
    m_font := ⟨0, 10⟩
    fontHeight := 14
    m_xDefaultScale := 1
    m_yDefaultScale := 1
    m_selectionHighlightColor := ⟨0xFFFF00⟩ }

/-- A host document of `n` visible blocks of one line each. -/
def plainBlocks (n : Nat) : List QTextBlock := List.replicate n ⟨1, true⟩

/-- A control 700 pixels high, just initialised, on a document of 100 lines with scroll range
`0 .. 51`, so that 50 lines are counted in the viewport. -/
def demoBar : CoolScrollBar :=
  init demoSettings (plainBlocks 100) 100 [] 70 700 0 51 0

/-- The control of `demoBar` after its scale factors were updated for a document of 1000
lines, the prior state of the monotonicity check. -/
def shrunkBar : CoolScrollBar :=
  { demoBar with internalLineCount := 1000, m_yAdditionalScale := 1 / 20 }

/-- A control on a document without lines. -/
def emptyBar : CoolScrollBar :=
  init demoSettings [] 0 [] 70 700 0 0 0

/-- A control of height 0 on a document of one line. -/
def flatBar : CoolScrollBar :=
  init demoSettings (plainBlocks 1) 1 [] 70 0 0 0 0

/-- A content change to `lineCount` lines and a resize to `height` pixels, followed by the call
of `updateScaleFactors` that both trigger. -/
def updateWith (s : CoolScrollBar) (lineCount height : Int) : Option CoolScrollBar :=
  updateScaleFactors { s with internalLineCount := lineCount, height := height }

/-- A sequence of content changes and resizes, each given as `(lineCount, height)`, oldest
first. -/
def updateSequence (s : CoolScrollBar) : List (Int × Int) → Option CoolScrollBar
  | [] => some s
  | (n, h) :: rest => (updateWith s n h).bind fun s1 => updateSequence s1 rest

/-- The vertical centre of the viewport rectangle drawn for scroll value `v`: its top plus
half its height. -/
def viewportCentre (s : CoolScrollBar) (v : Int) : ℚ :=
  (drawViewportRect { s with value := v }).y + (drawViewportRect { s with value := v }).height / 2

/-- A document of two visible blocks, the second wrapped over 9 lines, with scroll range
`0 .. 5`. -/
def wrappedBar : CoolScrollBar :=
  init demoSettings [⟨1, true⟩, ⟨9, true⟩] 10 [] 70 700 0 5 0

/-- A document of one line with scroll range `0 .. 6`. -/
def overRangeBar : CoolScrollBar :=
  init demoSettings (plainBlocks 1) 1 [] 70 700 0 6 0

/-- The control `demoBar` as its constructor leaves it: the final `updatePicture()` has set the
additional scale to 1/2. -/
def constructedBar : CoolScrollBar :=
  { demoBar with m_yAdditionalScale := 1 / 2 }

/-- Exact comparison of two characters. -/
def exactChar (a b : Char) : Bool := a == b

/-- A double-click on the host viewport, the selection of the word `a` that follows it, and a
mouse press that is filtered for another object. -/
def doubleClickTrace : List Event :=
  [Event.filtered true QEventType.MouseButtonDblClick, Event.selectionChanged ['a'],
    Event.filtered false QEventType.MouseButtonPress]

/-- The state of `constructedBar` after `doubleClickTrace`. -/
def armedBar : CoolScrollBar :=
  { constructedBar with m_highlightNextSelection := true, m_stringToHighlight := ['a'] }

/-- The cells of a text in which no character has a format property set. -/
def plainCells (text : List Char) : List Cell :=
  text.map fun c => ⟨c, QTextCharFormat.empty⟩

/-- The control `demoBar` on the shadow text `abcab`, with the highlight target `ab`. -/
def wordBar : CoolScrollBar :=
  { demoBar with internalCells := plainCells ['a', 'b', 'c', 'a', 'b']
                 m_stringToHighlight := ['a', 'b'] }

/-! ## Lemmas on the arithmetic -/

theorem truncToInt_intCast (n : Int) : truncToInt (n : ℚ) = n := by
  unfold truncToInt
  split <;> simp

theorem truncToInt_mono {a b : ℚ} (h : a ≤ b) : truncToInt a ≤ truncToInt b := by
  unfold truncToInt
  split_ifs with ha hb hb
  · exact Int.floor_mono h
  · exact absurd (le_trans ha h) hb
  · exact le_trans (Int.ceil_le.mpr (by push_cast; linarith [not_le.mp ha]))
      (Int.floor_nonneg.mpr hb)
  · exact Int.ceil_mono h

theorem qdiv_of_ne_zero (a : ℚ) {b : ℚ} (hb : b ≠ 0) : qdiv a b = some (a / b) := by
  simp [qdiv, hb]

theorem qdiv_zero (a : ℚ) : qdiv a 0 = none := by
  simp [qdiv]

theorem clampValue_bounds (s : CoolScrollBar) (v : Int) (hr : s.minimum ≤ s.maximum) :
    s.minimum ≤ clampValue s v ∧ clampValue s v ≤ s.maximum := by
  unfold clampValue
  split_ifs with h1 h2
  · exact ⟨hr, le_refl _⟩
  · exact ⟨le_refl _, hr⟩
  · exact ⟨not_lt.mp h2, not_lt.mp h1⟩

theorem clampValue_mono (s : CoolScrollBar) {v w : Int} (hr : s.minimum ≤ s.maximum)
    (h : v ≤ w) : clampValue s v ≤ clampValue s w := by
  unfold clampValue
  split_ifs <;> omega

theorem posToValue_eq (s : CoolScrollBar) (pos : ℚ) (hd : posDocumentHeight s ≠ 0) :
    posToValue s pos = some (clampValue s
      (truncToInt (pos * ((s.maximum + linesInViewportCount s : Int) : ℚ) / posDocumentHeight s)
        - Int.tdiv (linesInViewportCount s) 2)) := by
  simp [posToValue, qdiv_of_ne_zero _ hd]

/-! ## Claims on the pointer mapping -/

/-- Claim C1, clamping: for every pointer coordinate `pos`, every scroll range with
`minimum ≤ maximum` and every document of positive pixel height, `posToValue` returns a value
`v` with `minimum ≤ v ≤ maximum`. -/
theorem posToValue_clamped (s : CoolScrollBar) (pos : ℚ) (hr : s.minimum ≤ s.maximum)
    (hd : 0 < posDocumentHeight s) :
    ∃ v, posToValue s pos = some v ∧ s.minimum ≤ v ∧ v ≤ s.maximum :=
  ⟨_, posToValue_eq s pos (ne_of_gt hd), clampValue_bounds s _ hr⟩

/-- Claim C10, monotone pointer mapping: in a state with `minimum ≤ maximum`, positive document
pixel height and `maximum + linesInViewportCount ≥ 0`, `pos1 ≤ pos2` implies
`posToValue pos1 ≤ posToValue pos2`. -/
theorem posToValue_monotone (s : CoolScrollBar) (pos1 pos2 : ℚ) (hr : s.minimum ≤ s.maximum)
    (hd : 0 < posDocumentHeight s) (hl : 0 ≤ s.maximum + linesInViewportCount s)
    (h : pos1 ≤ pos2) :
    ∃ v1 v2, posToValue s pos1 = some v1 ∧ posToValue s pos2 = some v2 ∧ v1 ≤ v2 := by
  refine ⟨_, _, posToValue_eq s pos1 (ne_of_gt hd), posToValue_eq s pos2 (ne_of_gt hd), ?_⟩
  apply clampValue_mono s hr
  have hq : (0 : ℚ) ≤ ((s.maximum + linesInViewportCount s : Int) : ℚ) := by exact_mod_cast hl
  have hm : pos1 * ((s.maximum + linesInViewportCount s : Int) : ℚ) / posDocumentHeight s
      ≤ pos2 * ((s.maximum + linesInViewportCount s : Int) : ℚ) / posDocumentHeight s :=
    div_le_div_of_nonneg_right (mul_le_mul_of_nonneg_right h hq) (le_of_lt hd)
  have := truncToInt_mono hm
  omega

set_option maxRecDepth 100000 in
theorem demoBar_lines : linesInViewportCount demoBar = 50 := by decide

theorem demoBar_posDocumentHeight : posDocumentHeight demoBar = 1400 := by
  norm_num [posDocumentHeight, calculateLineHeight, getYScale, demoBar, init, demoSettings]

theorem posToValue_clamped_witness :
    demoBar.minimum ≤ demoBar.maximum ∧ 0 < posDocumentHeight demoBar ∧
      ∃ v, posToValue demoBar 350 = some v ∧ demoBar.minimum ≤ v ∧ v ≤ demoBar.maximum :=
  ⟨by decide, by rw [demoBar_posDocumentHeight]; norm_num,
    posToValue_clamped demoBar 350 (by decide) (by rw [demoBar_posDocumentHeight]; norm_num)⟩

theorem posToValue_monotone_witness :
    ∃ v1 v2, posToValue demoBar 100 = some v1 ∧ posToValue demoBar 350 = some v2 ∧ v1 ≤ v2 :=
  posToValue_monotone demoBar 100 350 (by decide)
    (by rw [demoBar_posDocumentHeight]; norm_num)
    (by rw [demoBar_lines]; decide) (by norm_num)

/-! ## Claims on the scale factors -/

theorem scaleDocumentHeight_eq (s : CoolScrollBar) :
    scaleDocumentHeight s
      = ((s.settings.fontHeight * s.internalLineCount : Int) : ℚ) * s.settings.m_yDefaultScale := by
  simp [scaleDocumentHeight, calculateLineHeight, truncToInt_intCast]

theorem updateScaleFactors_shrink (s : CoolScrollBar) (hh : 0 ≤ s.height)
    (h : (s.height : ℚ) < scaleDocumentHeight s) :
    updateScaleFactors s
      = some { s with m_yAdditionalScale := (s.height : ℚ) / scaleDocumentHeight s } := by
  have h0 : (0 : ℚ) ≤ (s.height : ℚ) := by exact_mod_cast hh
  have hne : scaleDocumentHeight s ≠ 0 := ne_of_gt (lt_of_le_of_lt h0 h)
  simp [updateScaleFactors, h, qdiv_of_ne_zero _ hne]

theorem updateScaleFactors_keep (s : CoolScrollBar)
    (h : scaleDocumentHeight s ≤ (s.height : ℚ)) : updateScaleFactors s = some s := by
  simp [updateScaleFactors, not_lt.mpr h]

theorem demoBar_scaleDocumentHeight : scaleDocumentHeight demoBar = 1400 := by
  rw [scaleDocumentHeight_eq]
  norm_num [demoBar, init, demoSettings]

/-- Claim C2, evaluated: after `updateScaleFactors` shrank the scale to 1/2 for 100 lines on a
control of 700 pixels, a content change to 10 lines (document height 140 ≤ 700) and the next
`updateScaleFactors` leave the additional scale at 1/2 and not at 1. -/
theorem updateScaleFactors_keeps_stale_scale :
    ∃ s1 s2, updateScaleFactors demoBar = some s1 ∧
      scaleDocumentHeight { s1 with internalLineCount := 10 } ≤ (s1.height : ℚ) ∧
      updateScaleFactors { s1 with internalLineCount := 10 } = some s2 ∧
      s2.m_yAdditionalScale = 1 / 2 ∧ s2.m_yAdditionalScale ≠ 1 := by
  have h1 := updateScaleFactors_shrink demoBar (by decide)
    (by rw [demoBar_scaleDocumentHeight]; norm_num [demoBar, init])
  rw [demoBar_scaleDocumentHeight] at h1
  have hd : scaleDocumentHeight
      { ({ demoBar with m_yAdditionalScale := (demoBar.height : ℚ) / 1400 } : CoolScrollBar)
        with internalLineCount := 10 } ≤ ((700 : Int) : ℚ) := by
    rw [scaleDocumentHeight_eq]
    norm_num [demoBar, init, demoSettings]
  refine ⟨_, _, h1, hd, updateScaleFactors_keep _ hd, ?_, ?_⟩ <;>
    norm_num [demoBar, init]

/-- Claim C4, the concrete scenario: on a control with line height 14, a shadow document of 100
lines, height 700 and configured y-scale 1 (whatever its additional scale was, in particular the
1.0 of a freshly constructed control), `updateScaleFactors` computes the document height 1400
and sets the additional scale to 1/2; with scroll value 0 and 50 lines in the viewport the
viewport rectangle then has top 0 and height 350. -/
theorem scenario_hundred_lines (s : CoolScrollBar)
    (hfont : s.settings.fontHeight = 14) (hlines : s.internalLineCount = 100)
    (hheight : s.height = 700) (hscale : s.settings.m_yDefaultScale = 1)
    (hvalue : s.value = 0) (hview : linesInViewportCount s = 50) :
    scaleDocumentHeight s = 1400 ∧
      ∃ s1, updateScaleFactors s = some s1 ∧ s1.m_yAdditionalScale = 1 / 2 ∧
        (drawViewportRect s1).y = 0 ∧ (drawViewportRect s1).height = 350 := by
  have hdoc : scaleDocumentHeight s = 1400 := by
    rw [scaleDocumentHeight_eq, hfont, hlines, hscale]; norm_num
  have hupd := updateScaleFactors_shrink s (by rw [hheight]; decide)
    (by rw [hdoc, hheight]; norm_num)
  have hhalf : (s.height : ℚ) / scaleDocumentHeight s = 1 / 2 := by
    rw [hdoc, hheight]; norm_num
  rw [hhalf] at hupd
  refine ⟨hdoc, _, hupd, rfl, ?_, ?_⟩
  · simp [drawViewportRect, hvalue]
  · simp only [drawViewportRect, calculateLineHeight, getYScale, hfont, hscale]
    have hv : linesInViewportCount
        ({ s with m_yAdditionalScale := 1 / 2 } : CoolScrollBar) = 50 := hview
    rw [hv]
    norm_num

theorem scenario_hundred_lines_witness :
    demoBar.m_yAdditionalScale = 1 ∧ scaleDocumentHeight demoBar = 1400 ∧
      ∃ s1, updateScaleFactors demoBar = some s1 ∧ s1.m_yAdditionalScale = 1 / 2 ∧
        (drawViewportRect s1).y = 0 ∧ (drawViewportRect s1).height = 350 :=
  ⟨rfl, scenario_hundred_lines demoBar rfl rfl rfl rfl rfl demoBar_lines⟩

/-- Claim C5, evaluated: from the same prior state, whose additional scale 1/20 was computed
for 1000 lines, the update with 10 lines leaves 1/20 and the update with 100 lines gives 1/2:
the scale after the larger line count is the larger one. -/
theorem updateScaleFactors_scale_increases :
    ∃ s1 s2, updateWith shrunkBar 10 700 = some s1 ∧ updateWith shrunkBar 100 700 = some s2 ∧
      s1.m_yAdditionalScale = 1 / 20 ∧ s2.m_yAdditionalScale = 1 / 2 ∧
      s1.m_yAdditionalScale < s2.m_yAdditionalScale := by
  have hd1 : scaleDocumentHeight
      { shrunkBar with internalLineCount := 10, height := 700 } = 140 := by
    rw [scaleDocumentHeight_eq]; norm_num [shrunkBar, demoBar, init, demoSettings]
  have hd2 : scaleDocumentHeight
      { shrunkBar with internalLineCount := 100, height := 700 } = 1400 := by
    rw [scaleDocumentHeight_eq]; norm_num [shrunkBar, demoBar, init, demoSettings]
  have h1 : updateWith shrunkBar 10 700
      = some { shrunkBar with internalLineCount := 10, height := 700 } :=
    updateScaleFactors_keep _ (by rw [hd1]; norm_num)
  have h2 := updateScaleFactors_shrink
    { shrunkBar with internalLineCount := 100, height := 700 } (by decide)
    (by rw [hd2]; norm_num)
  rw [hd2] at h2
  refine ⟨_, _, h1, h2, ?_, ?_, ?_⟩ <;> norm_num [shrunkBar]

/-- The prior state of `updateScaleFactors_scale_increases` is reached from `demoBar` by a
content change to 1000 lines. -/
theorem shrunkBar_reached : updateWith demoBar 1000 700 = some shrunkBar := by
  have hd : scaleDocumentHeight
      { demoBar with internalLineCount := 1000, height := 700 } = 14000 := by
    rw [scaleDocumentHeight_eq]; norm_num [demoBar, init, demoSettings]
  have h := updateScaleFactors_shrink
    { demoBar with internalLineCount := 1000, height := 700 } (by decide)
    (by rw [hd]; norm_num)
  rw [hd] at h
  rw [updateWith, h]
  simp only [shrunkBar, demoBar, init]
  norm_num

/-- Claim C6 as stated fails: on a document without lines `posToValue` divides by the document
height 0 and returns no value. -/
theorem posToValue_emptyBar_undefined :
    emptyBar.internalLineCount = 0 ∧ posDocumentHeight emptyBar = 0 ∧
      ¬ ∃ v, posToValue emptyBar 10 = some v ∧ emptyBar.minimum ≤ v ∧ v ≤ emptyBar.maximum := by
  have hd : posDocumentHeight emptyBar = 0 := by
    simp [posDocumentHeight, emptyBar, init]
  refine ⟨rfl, hd, ?_⟩
  rintro ⟨v, hv, -⟩
  simp [posToValue, hd, qdiv_zero] at hv

/-- Claim C6, amended: for a document with zero lines on a control of height ≥ 0,
`updateScaleFactors` guards the zero-height denominator, since its document height is 0, the
branch that divides by it is not entered and the call returns; `posToValue` does not guard it,
since its document height is 0 as well, it divides by it and returns no value, for every
pointer coordinate. -/
theorem degenerate_document_guard (s : CoolScrollBar) (pos : ℚ)
    (hlines : s.internalLineCount = 0) (hh : 0 ≤ s.height) :
    scaleDocumentHeight s = 0 ∧ ¬ scaleDocumentHeight s > (s.height : ℚ) ∧
      (∃ s1, updateScaleFactors s = some s1) ∧
      posDocumentHeight s = 0 ∧ posToValue s pos = none := by
  have h0 : (0 : ℚ) ≤ (s.height : ℚ) := by exact_mod_cast hh
  have hscale : scaleDocumentHeight s = 0 := by
    rw [scaleDocumentHeight_eq, hlines]
    simp
  have hpos : posDocumentHeight s = 0 := by
    rw [posDocumentHeight, hlines]
    simp
  refine ⟨hscale, ?_, ⟨s, updateScaleFactors_keep s ?_⟩, hpos, ?_⟩
  · rw [hscale]
    exact not_lt.mpr h0
  · rw [hscale]
    exact h0
  · simp [posToValue, hpos, qdiv_zero]

theorem degenerate_document_guard_witness :
    emptyBar.internalLineCount = 0 ∧ 0 ≤ emptyBar.height ∧
      scaleDocumentHeight emptyBar = 0 ∧ ¬ scaleDocumentHeight emptyBar > (emptyBar.height : ℚ) ∧
      (∃ s1, updateScaleFactors emptyBar = some s1) ∧
      posDocumentHeight emptyBar = 0 ∧ posToValue emptyBar 350 = none :=
  ⟨rfl, by decide, degenerate_document_guard emptyBar 350 rfl (by decide)⟩

/-- Claim C7 as stated fails: on a control of height 0 with a document of one line, line height
14 and y-scale 1, `updateScaleFactors` sets the additional scale to 0. -/
theorem updateScaleFactors_flatBar_zero :
    flatBar.m_yAdditionalScale = 1 ∧ 0 ≤ flatBar.internalLineCount ∧ 0 ≤ flatBar.height ∧
      0 < flatBar.settings.fontHeight ∧ 0 < flatBar.settings.m_yDefaultScale ∧
      ∃ s1, updateSequence flatBar [(1, 0)] = some s1 ∧ ¬ 0 < s1.m_yAdditionalScale := by
  have hd : scaleDocumentHeight flatBar = 14 := by
    rw [scaleDocumentHeight_eq]; norm_num [flatBar, init, demoSettings]
  have h := updateScaleFactors_shrink flatBar (by decide)
    (by rw [hd]; norm_num [flatBar, init])
  refine ⟨rfl, by decide, by decide, by decide, by norm_num [flatBar, init, demoSettings],
    ⟨{ flatBar with m_yAdditionalScale := (flatBar.height : ℚ) / scaleDocumentHeight flatBar },
      ?_, ?_⟩⟩
  · show (updateScaleFactors flatBar).bind (fun s1 => updateSequence s1 []) = _
    rw [h]
    rfl
  · norm_num [flatBar, init]

/-- The invariant of claim C7 is kept by one update with a positive height. -/
theorem updateWith_scale_range (s : CoolScrollBar) (n h : Int) (hh : 0 < h)
    (hinv : 0 < s.m_yAdditionalScale ∧ s.m_yAdditionalScale ≤ 1) :
    ∃ s1, updateWith s n h = some s1 ∧ s1.settings = s.settings ∧
      0 < s1.m_yAdditionalScale ∧ s1.m_yAdditionalScale ≤ 1 := by
  have hq : (0 : ℚ) < (h : ℚ) := by exact_mod_cast hh
  rcases lt_or_le (h : ℚ)
      (scaleDocumentHeight { s with internalLineCount := n, height := h }) with hlt | hle
  · refine ⟨_, updateScaleFactors_shrink _ (le_of_lt hh) hlt, rfl, ?_, ?_⟩
    · exact div_pos hq (lt_trans hq hlt)
    · exact (div_le_one (lt_trans hq hlt)).mpr (le_of_lt hlt)
  · exact ⟨_, updateScaleFactors_keep _ hle, rfl, hinv.1, hinv.2⟩

theorem updateSequence_scale_range (updates : List (Int × Int)) :
    ∀ s : CoolScrollBar, (∀ u ∈ updates, 0 < u.2) →
      0 < s.m_yAdditionalScale ∧ s.m_yAdditionalScale ≤ 1 →
      ∃ s1, updateSequence s updates = some s1 ∧ s1.settings = s.settings ∧
        0 < s1.m_yAdditionalScale ∧ s1.m_yAdditionalScale ≤ 1 := by
  induction updates with
  | nil => intro s _ hinv; exact ⟨s, rfl, rfl, hinv⟩
  | cons u rest ih =>
    intro s hpos hinv
    obtain ⟨n, h⟩ := u
    obtain ⟨s1, h1, hset1, hinv1⟩ :=
      updateWith_scale_range s n h (hpos (n, h) (List.mem_cons_self _ _)) hinv
    obtain ⟨s2, h2, hset2, hinv2⟩ :=
      ih s1 (fun u hu => hpos u (List.mem_cons_of_mem _ hu)) hinv1
    refine ⟨s2, ?_, hset2.trans hset1, hinv2⟩
    show (updateWith s n h).bind (fun s1 => updateSequence s1 rest) = _
    rw [h1]
    exact h2

/-- Claim C7, amended: `m_yAdditionalScale` is 1 at construction and, after any sequence of
`updateScaleFactors` calls with control heights > 0 (for every line count and line height, in
particular line counts ≥ 0 and a positive line height) and a positive configured y-scale,
satisfies `0 < m_yAdditionalScale ≤ 1`; the effective y-scale, the divisor in `updatePicture`,
is then not zero. -/
theorem additionalScale_range (settings : CoolScrollbarSettings) (origBlocks : List QTextBlock)
    (internalLineCount : Int) (internalCells : List Cell)
    (width height minimum maximum value : Int) (updates : List (Int × Int))
    (hscale : 0 < settings.m_yDefaultScale) (hupd : ∀ u ∈ updates, 0 < u.2) :
    (init settings origBlocks internalLineCount internalCells width height minimum maximum
        value).m_yAdditionalScale = 1 ∧
      ∃ s1, updateSequence (init settings origBlocks internalLineCount internalCells width height
          minimum maximum value) updates = some s1 ∧
        0 < s1.m_yAdditionalScale ∧ s1.m_yAdditionalScale ≤ 1 ∧ getYScale s1 ≠ 0 := by
  refine ⟨rfl, ?_⟩
  obtain ⟨s1, h1, hset, hpos, hle⟩ := updateSequence_scale_range updates
    (init settings origBlocks internalLineCount internalCells width height minimum maximum value)
    hupd ⟨by norm_num [init], by norm_num [init]⟩
  refine ⟨s1, h1, hpos, hle, ?_⟩
  have hs : 0 < s1.settings.m_yDefaultScale := by rw [hset]; exact hscale
  exact ne_of_gt (mul_pos hs hpos)

theorem additionalScale_range_witness :
    demoBar.m_yAdditionalScale = 1 ∧
      ∃ s1, updateSequence demoBar [(100, 700), (10, 300), (0, 5)] = some s1 ∧
        0 < s1.m_yAdditionalScale ∧ s1.m_yAdditionalScale ≤ 1 ∧ getYScale s1 ≠ 0 :=
  additionalScale_range demoSettings (plainBlocks 100) 100 [] 70 700 0 51 0
    [(100, 700), (10, 300), (0, 5)] (by norm_num [demoSettings]) (by decide)

/-! ## Round trip through the viewport rectangle -/

/-- Claim C3 as stated fails.  On a document without folded blocks whose last block is wrapped
over 9 lines, with scroll range `0 .. 5`, the centre of the rectangle drawn for value 0 is
mapped to 5; on a document of one line with scroll range `0 .. 6`, the centre of the rectangle
drawn for value 4 is mapped to 6. -/
theorem roundTrip_fails :
    ((∀ b ∈ wrappedBar.origBlocks, b.isVisible = true) ∧ wrappedBar.minimum = 0 ∧
        (0 : Int) ≤ 0 ∧ (0 : Int) ≤ wrappedBar.maximum ∧
        posToValue wrappedBar (viewportCentre wrappedBar 0) = some 5 ∧ ¬ |(5 : Int) - 0| ≤ 1) ∧
      ((∀ b ∈ overRangeBar.origBlocks, b.isVisible = true) ∧ overRangeBar.minimum = 0 ∧
        (0 : Int) ≤ 4 ∧ (4 : Int) ≤ overRangeBar.maximum ∧
        posToValue overRangeBar (viewportCentre overRangeBar 4) = some 6 ∧
        ¬ |(6 : Int) - 4| ≤ 1) := by
  have hl1 : linesInViewportCount wrappedBar = 14 := by decide
  have hd1 : posDocumentHeight wrappedBar = 140 := by
    norm_num [posDocumentHeight, calculateLineHeight, getYScale, wrappedBar, init, demoSettings]
  have hc1 : viewportCentre wrappedBar 0 = 98 := by
    simp only [viewportCentre, drawViewportRect]
    rw [show linesInViewportCount ({ wrappedBar with value := 0 } : CoolScrollBar) = 14 from hl1]
    norm_num [calculateLineHeight, getYScale, wrappedBar, init, demoSettings]
  have hl2 : linesInViewportCount overRangeBar = -4 := by decide
  have hd2 : posDocumentHeight overRangeBar = 14 := by
    norm_num [posDocumentHeight, calculateLineHeight, getYScale, overRangeBar, init, demoSettings]
  have hc2 : viewportCentre overRangeBar 4 = 28 := by
    simp only [viewportCentre, drawViewportRect]
    rw [show linesInViewportCount ({ overRangeBar with value := 4 } : CoolScrollBar) = -4
      from hl2]
    norm_num [calculateLineHeight, getYScale, overRangeBar, init, demoSettings]
  refine ⟨⟨by decide, rfl, by decide, by decide, ?_, by decide⟩,
    ⟨by decide, rfl, by decide, by decide, ?_, by decide⟩⟩
  · rw [posToValue_eq _ _ (by rw [hd1]; norm_num), hc1, hd1, hl1]
    have ht : truncToInt ((98 : ℚ) * ((wrappedBar.maximum + 14 : Int) : ℚ) / 140) = 13 := by
      unfold truncToInt
      norm_num [wrappedBar, init]
    rw [ht]
    decide
  · rw [posToValue_eq _ _ (by rw [hd2]; norm_num), hc2, hd2, hl2]
    have ht : truncToInt ((28 : ℚ) * ((overRangeBar.maximum + -4 : Int) : ℚ) / 14) = 4 := by
      unfold truncToInt
      norm_num [overRangeBar, init]
    rw [ht]
    decide

theorem lineCounts_single_line_last (s : CoolScrollBar) (pre : List QTextBlock)
    (hblocks : s.origBlocks = pre ++ [⟨1, true⟩]) (hvis : ∀ b ∈ pre, b.isVisible = true) :
    unfoldedLinesCount s = documentLineCount s - 1 := by
  simp [unfoldedLinesCount, documentLineCount, hblocks, List.dropLast_concat,
    List.filter_eq_self.mpr hvis]

theorem documentLineCount_pos (s : CoolScrollBar) (pre : List QTextBlock)
    (hblocks : s.origBlocks = pre ++ [⟨1, true⟩]) (hnn : ∀ b ∈ pre, 0 ≤ b.lineCount) :
    1 ≤ documentLineCount s := by
  have hsum : 0 ≤ (pre.map QTextBlock.lineCount).sum := by
    apply List.sum_nonneg
    intro x hx
    obtain ⟨b, hb, rfl⟩ := List.mem_map.mp hx
    exact hnn b hb
  simp [documentLineCount, hblocks]
  omega

/-- The quotient that `posToValue` truncates at the centre of the viewport rectangle, for a
document of `n` lines in which `l = n + 1 - m` lines are counted in the viewport. -/
theorem centre_quotient_bounds (n m l v : Int) (hn : 1 ≤ n) (hl : l = n + 1 - m)
    (hmn : m ≤ n) (hv0 : 0 ≤ v) :
    ((v + l / 2 : Int) : ℚ) ≤ (((2 * v + l) * (n + 1) : Int) : ℚ) / ((2 * n : Int) : ℚ) ∧
      (v < m →
        (((2 * v + l) * (n + 1) : Int) : ℚ) / ((2 * n : Int) : ℚ) < ((v + l / 2 + 2 : Int) : ℚ)) := by
  have hpos : (0 : ℚ) < ((2 * n : Int) : ℚ) := by exact_mod_cast (by omega : (0 : Int) < 2 * n)
  have hk1 : 2 * (l / 2) ≤ l := by omega
  have hk2 : l ≤ 2 * (l / 2) + 1 := by omega
  constructor
  · rw [le_div_iff₀ hpos]
    have hint : (v + l / 2) * (2 * n) ≤ (2 * v + l) * (n + 1) := by
      nlinarith [mul_nonneg (by omega : (0 : Int) ≤ l - 2 * (l / 2)) (by omega : (0 : Int) ≤ n)]
    exact_mod_cast hint
  · intro hlt
    rw [div_lt_iff₀ hpos]
    have hint : (2 * v + l) * (n + 1) < (v + l / 2 + 2) * (2 * n) := by
      nlinarith [mul_nonneg (by omega : (0 : Int) ≤ 2 * (l / 2) + 1 - l)
        (by omega : (0 : Int) ≤ n)]
    exact_mod_cast hint

/-- Claim C3, amended: for a document with no folded blocks whose last block occupies one line,
whose shadow copy has the same line count, with positive line height and effective y-scale,
scroll minimum 0 and a scroll maximum `M` that does not exceed the line count, and every value
`v` in `[0, M]`, `posToValue` at the vertical centre of the viewport rectangle drawn for `v`
returns `v` or `v + 1`. -/
theorem roundTrip_single_line_last (s : CoolScrollBar) (pre : List QTextBlock) (v : Int)
    (hblocks : s.origBlocks = pre ++ [⟨1, true⟩]) (hvis : ∀ b ∈ pre, b.isVisible = true)
    (hnn : ∀ b ∈ pre, 0 ≤ b.lineCount) (hshadow : s.internalLineCount = documentLineCount s)
    (hfont : 0 < s.settings.fontHeight) (hscale : 0 < getYScale s)
    (hmin : s.minimum = 0) (hmax : s.maximum ≤ documentLineCount s)
    (hv0 : 0 ≤ v) (hvm : v ≤ s.maximum) :
    ∃ r, posToValue s (viewportCentre s v) = some r ∧ v ≤ r ∧ r ≤ v + 1 := by
  have hn := documentLineCount_pos s pre hblocks hnn
  have hl : linesInViewportCount s = documentLineCount s + 1 - s.maximum := by
    rw [linesInViewportCount, lineCounts_single_line_last s pre hblocks hvis]
    ring
  have hf : (0 : ℚ) < (s.settings.fontHeight : ℚ) := by exact_mod_cast hfont
  have hnq : (0 : ℚ) < (documentLineCount s : ℚ) := by
    exact_mod_cast (by omega : (0 : Int) < documentLineCount s)
  have hd : 0 < posDocumentHeight s := by
    rw [posDocumentHeight, hshadow, calculateLineHeight]
    exact mul_pos (mul_pos hnq hf) hscale
  have hquot : viewportCentre s v * ((s.maximum + linesInViewportCount s : Int) : ℚ)
        / posDocumentHeight s
      = (((2 * v + linesInViewportCount s) * (documentLineCount s + 1) : Int) : ℚ)
        / ((2 * documentLineCount s : Int) : ℚ) := by
    have hcentre : viewportCentre s v
        = (v : ℚ) * ((s.settings.fontHeight : ℚ) * getYScale s)
          + (linesInViewportCount s : ℚ) * ((s.settings.fontHeight : ℚ) * getYScale s) / 2 := rfl
    have hheight : posDocumentHeight s
        = (documentLineCount s : ℚ) * (s.settings.fontHeight : ℚ) * getYScale s := by
      rw [posDocumentHeight, hshadow, calculateLineHeight]
    have hsum : s.maximum + linesInViewportCount s = documentLineCount s + 1 := by omega
    rw [hcentre, hheight, hsum]
    push_cast
    field_simp
    ring
  obtain ⟨hlow, hhigh⟩ :=
    centre_quotient_bounds (documentLineCount s) s.maximum (linesInViewportCount s) v hn hl hmax hv0
  have hlv : 0 ≤ v + linesInViewportCount s / 2 := by omega
  have hq0 : (0 : ℚ) ≤ (((2 * v + linesInViewportCount s) * (documentLineCount s + 1) : Int) : ℚ)
      / ((2 * documentLineCount s : Int) : ℚ) :=
    le_trans (by exact_mod_cast hlv) hlow
  have htdiv : Int.tdiv (linesInViewportCount s) 2 = linesInViewportCount s / 2 :=
    Int.tdiv_eq_ediv (by omega) (by decide)
  refine ⟨_, posToValue_eq s _ (ne_of_gt hd), ?_⟩
  rw [hquot, htdiv, truncToInt, if_pos hq0]
  have h1 : v + linesInViewportCount s / 2
      ≤ ⌊(((2 * v + linesInViewportCount s) * (documentLineCount s + 1) : Int) : ℚ)
        / ((2 * documentLineCount s : Int) : ℚ)⌋ := Int.le_floor.mpr hlow
  have h2 : v < s.maximum →
      ⌊(((2 * v + linesInViewportCount s) * (documentLineCount s + 1) : Int) : ℚ)
        / ((2 * documentLineCount s : Int) : ℚ)⌋ < v + linesInViewportCount s / 2 + 2 :=
    fun hlt => Int.floor_lt.mpr (hhigh hlt)
  unfold clampValue
  split_ifs <;> constructor <;> omega

set_option maxRecDepth 100000 in
theorem roundTrip_single_line_last_witness :
    ∃ r, posToValue demoBar (viewportCentre demoBar 30) = some r ∧ 30 ≤ r ∧ r ≤ 30 + 1 :=
  roundTrip_single_line_last demoBar (plainBlocks 99) 30 rfl
    (by intro b hb; rw [List.eq_of_mem_replicate hb])
    (by intro b hb; rw [List.eq_of_mem_replicate hb]; decide)
    (by decide) (by decide) (by norm_num [getYScale, demoBar, init, demoSettings])
    rfl (by decide) (by decide) (by decide)

/-! ## The armed flag -/

theorem updateScaleFactors_flag {s s1 : CoolScrollBar} (h : updateScaleFactors s = some s1) :
    s1.m_highlightNextSelection = s.m_highlightNextSelection := by
  unfold updateScaleFactors at h
  dsimp only at h
  split at h
  · obtain ⟨q, -, rfl⟩ := Option.map_eq_some'.mp h
    rfl
  · cases h
    rfl

theorem updatePicture_flag {s s1 : CoolScrollBar} (h : updatePicture s = some s1) :
    s1.m_highlightNextSelection = s.m_highlightNextSelection := by
  unfold updatePicture at h
  obtain ⟨a, ha, h⟩ := Option.bind_eq_some.mp h
  obtain ⟨_, _, h⟩ := Option.bind_eq_some.mp h
  obtain ⟨_, _, h⟩ := Option.bind_eq_some.mp h
  cases h
  exact updateScaleFactors_flag ha

theorem highlightSelectedWord_flag {same : Char → Char → Bool} {s s1 : CoolScrollBar}
    (h : highlightSelectedWord same s = some s1) :
    s1.m_highlightNextSelection = s.m_highlightNextSelection
      ∧ s1.m_stringToHighlight = s.m_stringToHighlight := by
  obtain ⟨d, -, rfl⟩ := Option.map_eq_some'.mp h
  exact ⟨rfl, rfl⟩

theorem clearHighlight_flag {same : Char → Char → Bool} {s s1 : CoolScrollBar}
    (h : clearHighlight same s = some s1) :
    s1.m_highlightNextSelection = s.m_highlightNextSelection := by
  obtain ⟨d, -, rfl⟩ := Option.map_eq_some'.mp h
  rfl

theorem updateScaleFactors_target {s s1 : CoolScrollBar} (h : updateScaleFactors s = some s1) :
    s1.m_stringToHighlight = s.m_stringToHighlight := by
  unfold updateScaleFactors at h
  dsimp only at h
  split at h
  · obtain ⟨q, -, rfl⟩ := Option.map_eq_some'.mp h
    rfl
  · cases h
    rfl

theorem updatePicture_target {s s1 : CoolScrollBar} (h : updatePicture s = some s1) :
    s1.m_stringToHighlight = s.m_stringToHighlight := by
  unfold updatePicture at h
  obtain ⟨a, ha, h⟩ := Option.bind_eq_some.mp h
  obtain ⟨_, _, h⟩ := Option.bind_eq_some.mp h
  obtain ⟨_, _, h⟩ := Option.bind_eq_some.mp h
  cases h
  exact updateScaleFactors_target ha

theorem onDocumentSelectionChanged_flag {same : Char → Char → Bool} {s s1 : CoolScrollBar}
    {selection : List Char} (h : onDocumentSelectionChanged same s selection = some s1) :
    s1.m_highlightNextSelection = s.m_highlightNextSelection := by
  unfold onDocumentSelectionChanged at h
  split at h
  · obtain ⟨a, ha, h⟩ := Option.bind_eq_some.mp h
    obtain ⟨b, hb, h⟩ := Option.bind_eq_some.mp h
    rw [updatePicture_flag h, (highlightSelectedWord_flag hb).1]
    show a.m_highlightNextSelection = s.m_highlightNextSelection
    exact clearHighlight_flag ha
  · cases h
    rfl

theorem onDocumentSelectionChanged_target {same : Char → Char → Bool} {s s1 : CoolScrollBar}
    {selection : List Char} (harmed : s.m_highlightNextSelection = true)
    (h : onDocumentSelectionChanged same s selection = some s1) :
    s1.m_stringToHighlight = selection := by
  unfold onDocumentSelectionChanged at h
  rw [if_pos harmed] at h
  obtain ⟨a, _, h⟩ := Option.bind_eq_some.mp h
  obtain ⟨b, hb, h⟩ := Option.bind_eq_some.mp h
  rw [updatePicture_target h, (highlightSelectedWord_flag hb).2]

theorem step_flag {same : Char → Char → Bool} {s s1 : CoolScrollBar} {e : Event}
    (h : step same s e = some s1) :
    s1.m_highlightNextSelection
      = match viewportEventType e with
        | some t => decide (t = QEventType.MouseButtonDblClick)
        | none => s.m_highlightNextSelection := by
  cases e with
  | filtered isViewport t =>
    cases isViewport <;> simp [step, eventFilter] at h <;> subst h <;> rfl
  | selectionChanged selection => exact onDocumentSelectionChanged_flag h
  | contentChanged blocks n cells =>
    simp only [step, onDocumentContentChanged] at h
    have h2 := updatePicture_flag h
    exact h2
  | mousePress button y =>
    cases button with
    | LeftButton =>
      obtain ⟨v, -, rfl⟩ := Option.map_eq_some'.mp h
      rfl
    | RightButton =>
      obtain ⟨a, ha, h⟩ := Option.bind_eq_some.mp h
      show s1.m_highlightNextSelection = s.m_highlightNextSelection
      rw [updatePicture_flag h]
      exact clearHighlight_flag ha
    | otherButton =>
      cases h
      rfl
  | mouseMove y =>
    simp only [step, mouseMoveEvent] at h
    split at h
    · obtain ⟨v, -, rfl⟩ := Option.map_eq_some'.mp h
      rfl
    · cases h
      rfl
  | mouseRelease button =>
    simp only [step, mouseReleaseEvent] at h
    split at h <;> cases h <;> rfl
  | resize w h1 =>
    simp only [step, resizeEvent] at h
    have h2 := updatePicture_flag h
    exact h2
  | rangeChanged lo hi v =>
    cases h
    rfl

theorem run_flag (same : Char → Char → Bool) (es : List Event) :
    ∀ s s1 : CoolScrollBar, run same s es = some s1 →
      s1.m_highlightNextSelection
        = match lastViewportEvent es with
          | some t => decide (t = QEventType.MouseButtonDblClick)
          | none => s.m_highlightNextSelection := by
  induction es with
  | nil =>
    intro s s1 h
    cases h
    rfl
  | cons e es ih =>
    intro s s1 h
    obtain ⟨s2, hstep, hrest⟩ := Option.bind_eq_some.mp h
    have h1 := ih s2 s1 hrest
    have h2 := step_flag hstep
    rw [h1, lastViewportEvent]
    cases hlast : lastViewportEvent es with
    | some t => rfl
    | none => exact h2

/-- Claim C9, the armed flag: `m_highlightNextSelection` is false at construction and, in every
state reached from there, it is true exactly when some event was filtered from the host viewport
and the most recent such event was a mouse double-click; an event filtered for another object
and a selection-changed notification leave the flag as it is, and a selection-changed
notification changes nothing, the highlight target included, when the flag is false, and stores
the selection as the target when the flag is true. -/
theorem armed_flag_state_machine (same : Char → Char → Bool) (settings : CoolScrollbarSettings)
    (origBlocks : List QTextBlock) (internalLineCount : Int) (internalCells : List Cell)
    (width height minimum maximum value : Int) (c s : CoolScrollBar) (es : List Event)
    (hc : construct settings origBlocks internalLineCount internalCells width height minimum
      maximum value = some c)
    (hrun : run same c es = some s) :
    c.m_highlightNextSelection = false ∧
      (s.m_highlightNextSelection = true ↔
        lastViewportEvent es = some QEventType.MouseButtonDblClick) ∧
      (∀ t, (eventFilter s false t).1.m_highlightNextSelection = s.m_highlightNextSelection) ∧
      (∀ selection s1, onDocumentSelectionChanged same s selection = some s1 →
        s1.m_highlightNextSelection = s.m_highlightNextSelection) ∧
      (∀ selection, s.m_highlightNextSelection = false →
        onDocumentSelectionChanged same s selection = some s) ∧
      (∀ selection s1, s.m_highlightNextSelection = true →
        onDocumentSelectionChanged same s selection = some s1 →
        s1.m_stringToHighlight = selection) := by
  have hc0 : c.m_highlightNextSelection = false := updatePicture_flag hc
  refine ⟨hc0, ?_, fun _ => rfl, fun _ _ h => onDocumentSelectionChanged_flag h, ?_,
    fun _ _ harmed h => onDocumentSelectionChanged_target harmed h⟩
  · rw [run_flag same es c s hrun, hc0]
    cases lastViewportEvent es with
    | none => simp
    | some t => simp
  · intro selection hoff
    simp [onDocumentSelectionChanged, hoff]

theorem updatePicture_shrink (s : CoolScrollBar) (hh : 0 ≤ s.height)
    (h : (s.height : ℚ) < scaleDocumentHeight s) (hx : s.settings.m_xDefaultScale ≠ 0)
    (hy : s.settings.m_yDefaultScale * ((s.height : ℚ) / scaleDocumentHeight s) ≠ 0) :
    updatePicture s
      = some { s with m_yAdditionalScale := (s.height : ℚ) / scaleDocumentHeight s } := by
  unfold updatePicture
  rw [updateScaleFactors_shrink s hh h]
  simp only [Option.some_bind, getXScale, getYScale]
  rw [qdiv_of_ne_zero _ hx, qdiv_of_ne_zero _ hy]
  rfl

theorem construct_demoBar :
    construct demoSettings (plainBlocks 100) 100 [] 70 700 0 51 0 = some constructedBar := by
  have h := updatePicture_shrink demoBar (by decide)
    (by rw [demoBar_scaleDocumentHeight]; norm_num [demoBar, init])
    (by norm_num [demoBar, init, demoSettings])
    (by rw [demoBar_scaleDocumentHeight]; norm_num [demoBar, init, demoSettings])
  rw [demoBar_scaleDocumentHeight] at h
  rw [construct]
  have hq : ((demoBar.height : Int) : ℚ) / 1400 = 1 / 2 := by norm_num [demoBar, init]
  rw [hq] at h
  exact h

theorem run_doubleClickTrace : run exactChar constructedBar doubleClickTrace = some armedBar := by
  have hd : scaleDocumentHeight armedBar = 1400 := demoBar_scaleDocumentHeight
  have h := updatePicture_shrink armedBar (by decide)
    (by rw [hd]; norm_num [armedBar, constructedBar, demoBar, init])
    (by norm_num [armedBar, constructedBar, demoBar, init, demoSettings])
    (by rw [hd]; norm_num [armedBar, constructedBar, demoBar, init, demoSettings])
  rw [hd] at h
  have hq : ((armedBar.height : Int) : ℚ) / 1400 = 1 / 2 := by
    norm_num [armedBar, constructedBar, demoBar, init]
  rw [hq] at h
  show (updatePicture armedBar).bind
      (fun s2 => run exactChar s2 [Event.filtered false QEventType.MouseButtonPress]) = _
  rw [h]
  rfl

theorem armed_flag_state_machine_witness :
    constructedBar.m_highlightNextSelection = false ∧
      (armedBar.m_highlightNextSelection = true ↔
        lastViewportEvent doubleClickTrace = some QEventType.MouseButtonDblClick) ∧
      (∀ t, (eventFilter armedBar false t).1.m_highlightNextSelection
        = armedBar.m_highlightNextSelection) ∧
      (∀ selection s1, onDocumentSelectionChanged exactChar armedBar selection = some s1 →
        s1.m_highlightNextSelection = armedBar.m_highlightNextSelection) ∧
      (∀ selection, armedBar.m_highlightNextSelection = false →
        onDocumentSelectionChanged exactChar armedBar selection = some armedBar) ∧
      (∀ selection s1, armedBar.m_highlightNextSelection = true →
        onDocumentSelectionChanged exactChar armedBar selection = some s1 →
        s1.m_stringToHighlight = selection) :=
  armed_flag_state_machine exactChar demoSettings (plainBlocks 100) 100 [] 70 700 0 51 0
    constructedBar armedBar doubleClickTrace construct_demoBar run_doubleClickTrace

/-! ## Highlighting -/

theorem matchesAt_length (same : Char → Char → Bool) :
    ∀ str text : List Char, matchesAt same str text = true → str.length ≤ text.length := by
  intro str
  induction str with
  | nil => intro text _; simp
  | cons c cs ih =>
    intro text h
    cases text with
    | nil => simp [matchesAt] at h
    | cons x xs =>
      simp only [matchesAt, Bool.and_eq_true] at h
      have := ih xs h.2
      simp only [List.length_cons]
      omega

theorem findIn_some (same : Char → Char → Bool) (str : List Char) :
    ∀ (text : List Char) (i a : Nat), findIn same str text i = some a →
      i ≤ a ∧ a + str.length ≤ i + text.length := by
  intro text
  induction text with
  | nil => intro i a h; simp [findIn] at h
  | cons x xs ih =>
    intro i a h
    unfold findIn at h
    split at h
    · rename_i hm
      cases h
      exact ⟨le_refl _, Nat.add_le_add_left (matchesAt_length same str (x :: xs) hm) _⟩
    · have := ih (i + 1) a h
      simp only [List.length_cons]
      omega

theorem find_some (same : Char → Char → Bool) (str : List Char) (doc : List Cell)
    (cur a b : Nat) (h : find same str doc cur = some (a, b)) :
    cur ≤ a ∧ b = a + str.length ∧ b ≤ doc.length := by
  unfold find at h
  obtain ⟨a1, ha, hab⟩ := Option.map_eq_some'.mp h
  cases hab
  have hfind := findIn_some same str _ cur a ha
  have hlen : ((plainText doc).drop cur).length = doc.length - cur := by
    simp [plainText]
  rw [hlen] at hfind
  refine ⟨hfind.1, rfl, ?_⟩
  by_cases hc : cur ≤ doc.length
  · omega
  · have hnil : (plainText doc).drop cur = [] := by
      apply List.drop_eq_nil_of_le
      simp [plainText]
      omega
    rw [hnil] at ha
    simp [findIn] at ha

theorem mergeFrom_get (fmt : QTextCharFormat) (a b : Nat) :
    ∀ (cells : List Cell) (i j : Nat),
      (mergeFrom fmt a b i cells)[j]?
        = (cells[j]?).map fun c =>
            if a ≤ i + j ∧ i + j < b then { c with format := c.format.merge fmt } else c := by
  intro cells
  induction cells with
  | nil => intro i j; simp [mergeFrom]
  | cons c cs ih =>
    intro i j
    cases j with
    | zero => simp [mergeFrom]
    | succ j =>
      simp only [mergeFrom, List.getElem?_cons_succ, ih]
      have : i + 1 + j = i + (j + 1) := by omega
      rw [this]

theorem mergeFrom_plainText (fmt : QTextCharFormat) (a b : Nat) :
    ∀ (cells : List Cell) (i : Nat), plainText (mergeFrom fmt a b i cells) = plainText cells := by
  intro cells
  induction cells with
  | nil => intro i; rfl
  | cons c cs ih =>
    intro i
    have h := ih (i + 1)
    simp only [plainText] at h
    simp only [plainText, mergeFrom, List.map_cons, h]
    split <;> rfl

theorem mergeCharFormat_plainText (fmt : QTextCharFormat) (a b : Nat) (doc : List Cell) :
    plainText (mergeCharFormat fmt a b doc) = plainText doc :=
  mergeFrom_plainText fmt a b doc 0

theorem length_eq_of_plainText {d1 d2 : List Cell} (h : plainText d1 = plainText d2) :
    d1.length = d2.length := by
  have := congrArg List.length h
  simpa [plainText] using this

theorem find_congr (same : Char → Char → Bool) (str : List Char) {d1 d2 : List Cell}
    (h : plainText d1 = plainText d2) (cur : Nat) :
    find same str d1 cur = find same str d2 cur := by
  simp only [find, h]

theorem scanLoop_congr (same : Char → Char → Bool) (str : List Char) {d1 d2 : List Cell}
    (h : plainText d1 = plainText d2) :
    ∀ fuel cur, scanLoop same str fuel cur d1 = scanLoop same str fuel cur d2 := by
  intro fuel
  induction fuel with
  | zero => intro cur; rfl
  | succ fuel ih =>
    intro cur
    simp only [scanLoop, find_congr same str h cur]
    cases find same str d2 cur with
    | none => rfl
    | some r => simp only [ih]

theorem merge_idem (f m : QTextCharFormat) : (f.merge m).merge m = f.merge m := by
  obtain ⟨bg, font⟩ := m
  cases bg <;> cases font <;> rfl

theorem highlightLoop_plainText (same : Char → Char → Bool) (str : List Char)
    (fmt : QTextCharFormat) :
    ∀ (fuel cur : Nat) (doc d : List Cell), highlightLoop same str fmt fuel cur doc = some d →
      plainText d = plainText doc := by
  intro fuel
  induction fuel with
  | zero => intro cur doc d h; simp [highlightLoop] at h
  | succ fuel ih =>
    intro cur doc d h
    rw [highlightLoop] at h
    cases hf : find same str doc cur with
    | none =>
      rw [hf] at h
      cases h
      rfl
    | some r =>
      obtain ⟨a, b⟩ := r
      rw [hf] at h
      rw [ih b _ d h, mergeCharFormat_plainText]

theorem highlightLoop_below (same : Char → Char → Bool) (str : List Char)
    (fmt : QTextCharFormat) :
    ∀ (fuel cur : Nat) (doc d : List Cell), highlightLoop same str fmt fuel cur doc = some d →
      ∀ j, j < cur → d[j]? = doc[j]? := by
  intro fuel
  induction fuel with
  | zero => intro cur doc d h; simp [highlightLoop] at h
  | succ fuel ih =>
    intro cur doc d h j hj
    rw [highlightLoop] at h
    cases hf : find same str doc cur with
    | none =>
      rw [hf] at h
      cases h
      rfl
    | some r =>
      obtain ⟨a, b⟩ := r
      rw [hf] at h
      obtain ⟨hca, hb, -⟩ := find_some same str doc cur a b hf
      rw [ih b _ d h j (by omega), mergeCharFormat, mergeFrom_get]
      have hout : ¬ (a ≤ 0 + j ∧ 0 + j < b) := by omega
      simp only [hout, if_false]
      cases doc[j]? <;> rfl

theorem highlightLoop_total (same : Char → Char → Bool) (str : List Char)
    (fmt : QTextCharFormat) (hne : str ≠ []) :
    ∀ (fuel cur : Nat) (doc : List Cell), cur ≤ doc.length → doc.length + 1 ≤ fuel + cur →
      ∃ d, highlightLoop same str fmt fuel cur doc = some d := by
  have hlen : 0 < str.length := List.length_pos.mpr hne
  intro fuel
  induction fuel with
  | zero => intro cur doc h1 h2; omega
  | succ fuel ih =>
    intro cur doc h1 h2
    rw [highlightLoop]
    cases hf : find same str doc cur with
    | none => exact ⟨doc, rfl⟩
    | some r =>
      obtain ⟨a, b⟩ := r
      obtain ⟨hca, hb, hbl⟩ := find_some same str doc cur a b hf
      have hl : (mergeCharFormat fmt a b doc).length = doc.length :=
        length_eq_of_plainText (mergeCharFormat_plainText fmt a b doc)
      exact ih b _ (by omega) (by omega)

theorem highlightLoop_formats (same : Char → Char → Bool) (str : List Char)
    (fmt : QTextCharFormat) :
    ∀ (fuel cur : Nat) (doc d : List Cell), highlightLoop same str fmt fuel cur doc = some d →
      ∀ a ∈ scanLoop same str fuel cur doc, ∀ i, i < str.length →
        ∃ c0, doc[a + i]? = some c0 ∧
          d[a + i]? = some { c0 with format := c0.format.merge fmt } := by
  intro fuel
  induction fuel with
  | zero => intro cur doc d h; simp [highlightLoop] at h
  | succ fuel ih =>
    intro cur doc d h a0 ha0 i hi
    rw [highlightLoop] at h
    rw [scanLoop] at ha0
    cases hf : find same str doc cur with
    | none =>
      rw [hf] at ha0
      simp at ha0
    | some r =>
      obtain ⟨a, b⟩ := r
      rw [hf] at h ha0
      obtain ⟨hca, hb, hbl⟩ := find_some same str doc cur a b hf
      have htext := mergeCharFormat_plainText fmt a b doc
      rcases List.mem_cons.mp ha0 with rfl | htail
      · have hin : a0 + i < doc.length := by omega
        refine ⟨doc[a0 + i], List.getElem?_eq_getElem hin, ?_⟩
        rw [highlightLoop_below same str fmt fuel b _ d h (a0 + i) (by omega), mergeCharFormat,
          mergeFrom_get, List.getElem?_eq_getElem hin]
        have hinside : a0 ≤ 0 + (a0 + i) ∧ 0 + (a0 + i) < b := by omega
        simp only [Option.map_some', hinside, and_self, if_true]
      · rw [← scanLoop_congr same str htext fuel b] at htail
        obtain ⟨c1, hc1, hd⟩ := ih b _ d h a0 htail i hi
        rw [mergeCharFormat, mergeFrom_get] at hc1
        obtain ⟨c0, hc0, hmerge⟩ := Option.map_eq_some'.mp hc1
        refine ⟨c0, hc0, ?_⟩
        rw [hd, ← hmerge]
        split
        · simp only [merge_idem]
        · rfl

theorem highlightEntryInDocument_some (same : Char → Char → Bool) (doc : List Cell)
    (str : List Char) (fmt : QTextCharFormat) :
    ∃ d, highlightEntryInDocument same doc str fmt = some d ∧ plainText d = plainText doc := by
  unfold highlightEntryInDocument
  split
  · exact ⟨doc, rfl, rfl⟩
  · rename_i hempty
    have hne : str ≠ [] := by
      intro h
      exact hempty (by rw [h]; rfl)
    obtain ⟨d, hd⟩ := highlightLoop_total same str fmt hne (doc.length + 1) 0 doc
      (Nat.zero_le _) (le_refl _)
    exact ⟨d, hd, highlightLoop_plainText same str fmt _ _ _ _ hd⟩

theorem highlightSelectedWord_some (same : Char → Char → Bool) (s : CoolScrollBar) :
    ∃ s1, highlightSelectedWord same s = some s1 ∧
      plainText s1.internalCells = plainText s.internalCells ∧
      s1.m_stringToHighlight = s.m_stringToHighlight ∧ s1.settings = s.settings := by
  obtain ⟨d, hd, htext⟩ := highlightEntryInDocument_some same s.internalCells
    s.m_stringToHighlight (highlightFormat s.settings)
  exact ⟨{ s with internalCells := d }, by rw [highlightSelectedWord, hd]; rfl, htext, rfl, rfl⟩

theorem highlightTimes_some (same : Char → Char → Bool) (n : Nat) :
    ∀ s : CoolScrollBar, ∃ s1, highlightTimes same n s = some s1 ∧
      plainText s1.internalCells = plainText s.internalCells ∧
      s1.m_stringToHighlight = s.m_stringToHighlight ∧ s1.settings = s.settings := by
  induction n with
  | zero => intro s; exact ⟨s, rfl, rfl, rfl, rfl⟩
  | succ n ih =>
    intro s
    obtain ⟨s1, h1, ht1, hs1, hc1⟩ := highlightSelectedWord_some same s
    obtain ⟨s2, h2, ht2, hs2, hc2⟩ := ih s1
    refine ⟨s2, ?_, ht2.trans ht1, hs2.trans hs1, hc2.trans hc1⟩
    rw [highlightTimes, h1]
    exact h2

/-- Claim C8, highlight idempotence: for every non-empty target and every shadow document,
after `highlightSelectedWord` was applied one or more times, `clearHighlight` returns and leaves
every character of every occurrence that the forward scan finds (the same occurrences as in the
document before highlighting) with a white background and the configured base font. -/
theorem clearHighlight_after_highlights (same : Char → Char → Bool) (s : CoolScrollBar)
    (n : Nat) (hne : s.m_stringToHighlight ≠ []) :
    ∃ s1 s2, highlightTimes same (n + 1) s = some s1 ∧ clearHighlight same s1 = some s2 ∧
      scanOccurrences same s.m_stringToHighlight s2.internalCells
        = scanOccurrences same s.m_stringToHighlight s.internalCells ∧
      ∀ a ∈ scanOccurrences same s.m_stringToHighlight s2.internalCells,
        ∀ i, i < s.m_stringToHighlight.length →
          ∃ c, s2.internalCells[a + i]? = some c ∧
            c.format.background = some QColor.white ∧
            c.format.font = some s.settings.m_font := by
  obtain ⟨s1, h1, ht1, hs1, hc1⟩ := highlightTimes_some same (n + 1) s
  have hempty : s1.m_stringToHighlight.isEmpty = false := by
    rw [hs1]
    cases hstr : s.m_stringToHighlight with
    | nil => exact absurd hstr hne
    | cons c cs => rfl
  obtain ⟨d, hd, htd⟩ := highlightEntryInDocument_some same s1.internalCells
    s1.m_stringToHighlight (neutralFormat s1.settings)
  have hloop : highlightLoop same s1.m_stringToHighlight (neutralFormat s1.settings)
      (s1.internalCells.length + 1) 0 s1.internalCells = some d := by
    rw [highlightEntryInDocument, hempty] at hd
    exact hd
  have hscan : ∀ d1 d2 : List Cell, plainText d1 = plainText d2 →
      scanOccurrences same s.m_stringToHighlight d1
        = scanOccurrences same s.m_stringToHighlight d2 := by
    intro d1 d2 h
    rw [scanOccurrences, scanOccurrences, length_eq_of_plainText h]
    exact scanLoop_congr same _ h _ _
  refine ⟨s1, { s1 with internalCells := d }, h1, by rw [clearHighlight, hd]; rfl,
    hscan _ _ (htd.trans ht1), ?_⟩
  intro a ha i hi
  have ha1 : a ∈ scanLoop same s1.m_stringToHighlight (s1.internalCells.length + 1) 0
      s1.internalCells := by
    rw [hscan d s1.internalCells htd, scanOccurrences, ← hs1] at ha
    exact ha
  obtain ⟨c0, -, hc⟩ := highlightLoop_formats same s1.m_stringToHighlight
    (neutralFormat s1.settings) _ _ _ _ hloop a ha1 i (by rw [hs1]; exact hi)
  refine ⟨_, hc, rfl, ?_⟩
  show some s1.settings.m_font = some s.settings.m_font
  rw [hc1]

theorem wordBar_scan :
    scanOccurrences exactChar wordBar.m_stringToHighlight wordBar.internalCells = [0, 3] := by
  decide

theorem clearHighlight_after_highlights_witness :
    wordBar.m_stringToHighlight ≠ [] ∧
      ∃ s1 s2, highlightTimes exactChar (2 + 1) wordBar = some s1 ∧
        clearHighlight exactChar s1 = some s2 ∧
        scanOccurrences exactChar wordBar.m_stringToHighlight s2.internalCells
          = scanOccurrences exactChar wordBar.m_stringToHighlight wordBar.internalCells ∧
        ∀ a ∈ scanOccurrences exactChar wordBar.m_stringToHighlight s2.internalCells,
          ∀ i, i < wordBar.m_stringToHighlight.length →
            ∃ c, s2.internalCells[a + i]? = some c ∧
              c.format.background = some QColor.white ∧
              c.format.font = some wordBar.settings.m_font :=
  ⟨List.cons_ne_nil _ _, clearHighlight_after_highlights exactChar wordBar 2
    (List.cons_ne_nil _ _)⟩

end CoolScroll
